import Mathlib

/-!
Verification development for the `quadtree_vis` program (`src/main.rs`).

The program builds a quadtree over a set of moving 2-D particles every frame
and uses circular range queries to classify particles as overlapping.

Modelling conventions:
* `f32` coordinates, radii and the `capacity: f32` field are modelled as exact
  rationals (`ℚ`); all arithmetic in the source is `+`, `-`, `*`, `/ 2.0`,
  comparisons, `abs` and `%`, which are transcribed literally.
* The geometric primitives `Rect::contains`, `Circle::contains` and
  `Circle::overlaps_rect` come from the `macroquad` math library used by the
  source; they are transcribed here from that library (`Rect::contains` is
  inclusive on all four edges; `Circle::contains` compares the Euclidean
  distance with the radius, rendered square-free as `0 < r` together with the
  squared-distance comparison, which is equivalent over the reals).
* Rust `Vec<Particle>` becomes `List Particle`; `Option<Box<QuadTree>>`
  becomes `Option QuadTree`; in-place mutation becomes returning the new
  value.
* `screen_width()` / `screen_height()` equal the window dimensions the
  program requests (`WINDOW_WIDTH`/`WINDOW_HEIGHT`, both 1024).
-/

namespace QV

/-- Axis-aligned rectangle `(x, y, w, h)`, macroquad's `Rect`. -/
structure Rect where
  x : ℚ
  y : ℚ
  w : ℚ
  h : ℚ
deriving DecidableEq

/-- 2-D vector, macroquad's `Vec2`. -/
structure Vec2 where
  x : ℚ
  y : ℚ
deriving DecidableEq

/-- The colors the program uses (`RED`, `BLUE`, … from macroquad's prelude).
Only identity of colors matters to the logic, so they are an enumeration. -/
inductive Color where
  | red
  | blue
  | gray
  | green
  | black
deriving DecidableEq

/-- `struct Particle { pos, color, radius }` from `src/main.rs`. -/
structure Particle where
  pos : Vec2
  color : Color
  radius : ℚ
deriving DecidableEq

/-- Circle `(x, y, r)`, macroquad's `Circle`. -/
structure Circle where
  x : ℚ
  y : ℚ
  r : ℚ
deriving DecidableEq

/-- Modelled from macroquad: `Rect::contains(point)` tests
`point.x >= left && point.x <= right && point.y <= bottom && point.y >= top`
(inclusive on all four edges). -/
def Rect.containsVec (s : Rect) (p : Vec2) : Bool :=
  decide (p.x ≥ s.x ∧ p.x ≤ s.x + s.w ∧ p.y ≤ s.y + s.h ∧ p.y ≥ s.y)

/-- Absolute value written as the branch `f32::abs` computes, kept as an
explicit `if` so that it evaluates by `simp`/`norm_num`. -/
def ratAbs (q : ℚ) : ℚ := if q < 0 then -q else q

/-- Modelled from macroquad: `Circle::contains(pos)` is
`pos.distance(center) < r`.  Over the reals this is equivalent to
`0 < r ∧ (distance squared) < r²`, which is the square-root-free form used
here. -/
def Circle.containsVec (c : Circle) (p : Vec2) : Bool :=
  decide (0 < c.r ∧ (p.x - c.x) * (p.x - c.x) + (p.y - c.y) * (p.y - c.y) < c.r * c.r)

/-- Modelled from macroquad: `Circle::overlaps_rect(rect)` — compares the
distances from the circle center to the rectangle center against the
half-extents plus the radius, with a corner check as the last step. -/
def Circle.overlaps_rect (c : Circle) (rect : Rect) : Bool :=
  let dist_x := ratAbs (c.x - (rect.x + rect.w / 2))
  let dist_y := ratAbs (c.y - (rect.y + rect.h / 2))
  if dist_x > rect.w / 2 + c.r ∨ dist_y > rect.h / 2 + c.r then false
  else if dist_x ≤ rect.w / 2 ∨ dist_y ≤ rect.h / 2 then true
  else decide ((dist_x - rect.w / 2) * (dist_x - rect.w / 2)
      + (dist_y - rect.h / 2) * (dist_y - rect.h / 2) ≤ c.r * c.r)

/-- `const WINDOW_HEIGHT: f32 = 1024.0`. -/
def WINDOW_HEIGHT : ℚ := 1024

/-- `const WINDOW_WIDTH: f32 = 1024.0`. -/
def WINDOW_WIDTH : ℚ := 1024

/-- `const POINT_RADIUS: f32 = 5.0`. -/
def POINT_RADIUS : ℚ := 5

/-- `const QUADTREE_CAPACITY: f32 = 30.0`. -/
def QUADTREE_CAPACITY : ℚ := 30

/-- `const RANDOM_WALK_DISTANCE: f32 = 10.0`. -/
def RANDOM_WALK_DISTANCE : ℚ := 10

/-- `struct QuadTree` from `src/main.rs`: capacity, the `is_full` flag (set
when the node has subdivided), the boundary, the directly stored particles
(`data`), and four optional children. -/
inductive QuadTree : Type where
  | node (capacity : ℚ) (is_full : Bool) (boundary : Rect) (data : List Particle)
      (northeast northwest southeast southwest : Option QuadTree) : QuadTree

namespace QuadTree

/-- `QuadTree::new(capacity, boundary)`: empty leaf, `is_full = false`,
no children. -/
def new (capacity : ℚ) (boundary : Rect) : QuadTree :=
  .node capacity false boundary [] none none none none

/-- Field accessor for `capacity`. -/
def capacity : QuadTree → ℚ
  | .node c _ _ _ _ _ _ _ => c

/-- Field accessor for `is_full`. -/
def is_full : QuadTree → Bool
  | .node _ f _ _ _ _ _ _ => f

/-- Field accessor for `boundary`. -/
def boundary : QuadTree → Rect
  | .node _ _ bd _ _ _ _ _ => bd

/-- Field accessor for `data`. -/
def data : QuadTree → List Particle
  | .node _ _ _ d _ _ _ _ => d

/-- Field accessor for `northeast`. -/
def northeast : QuadTree → Option QuadTree
  | .node _ _ _ _ ne _ _ _ => ne

/-- Field accessor for `northwest`. -/
def northwest : QuadTree → Option QuadTree
  | .node _ _ _ _ _ nw _ _ => nw

/-- Field accessor for `southeast`. -/
def southeast : QuadTree → Option QuadTree
  | .node _ _ _ _ _ _ se _ => se

/-- Field accessor for `southwest`. -/
def southwest : QuadTree → Option QuadTree
  | .node _ _ _ _ _ _ _ sw => sw

/-- `QuadTree::contains(&point)`: `self.boundary.contains(point.pos)`. -/
def contains (t : QuadTree) (point : Particle) : Bool :=
  t.boundary.containsVec point.pos

/-- The guard `child.is_some() && child.contains(&point)` that `insert` uses
for each child slot. -/
def hits (o : Option QuadTree) (point : Particle) : Bool :=
  match o with
  | some t => t.contains point
  | none => false

/-- Boundary of the northeast child created on subdivision:
`Rect::new(x + w/2, y, w/2, h/2)`. -/
def quadNE (b : Rect) : Rect := ⟨b.x + b.w / 2, b.y, b.w / 2, b.h / 2⟩

/-- Boundary of the northwest child created on subdivision:
`Rect::new(x, y, w/2, h/2)`. -/
def quadNW (b : Rect) : Rect := ⟨b.x, b.y, b.w / 2, b.h / 2⟩

/-- Boundary of the southeast child created on subdivision:
`Rect::new(x + w/2, y + h/2, w/2, h/2)`. -/
def quadSE (b : Rect) : Rect := ⟨b.x + b.w / 2, b.y + b.h / 2, b.w / 2, b.h / 2⟩

/-- Boundary of the southwest child created on subdivision:
`Rect::new(x, y + h/2, w/2, h/2)`. -/
def quadSW (b : Rect) : Rect := ⟨b.x, b.y + b.h / 2, b.w / 2, b.h / 2⟩

mutual

/-- `QuadTree::insert(point)` from `src/main.rs`, transcribed branch by
branch.  If `is_full`, the point is routed to the first child (order NE, NW,
SE, SW) whose boundary contains it, and silently dropped when none does.
Otherwise, if `data.len() as f32 >= capacity`, the node subdivides: it sets
`is_full`, creates four empty quadrant children, and returns — `data` keeps
its points, which are not redistributed, and `point` is not stored.
Otherwise `point` is pushed onto `data`. -/
def insert : QuadTree → Particle → QuadTree
  | .node c full bd d ne nw se sw, point =>
    if full then
      if hits ne point then .node c full bd d (insertOpt ne point) nw se sw
      else if hits nw point then .node c full bd d ne (insertOpt nw point) se sw
      else if hits se point then .node c full bd d ne nw (insertOpt se point) sw
      else if hits sw point then .node c full bd d ne nw se (insertOpt sw point)
      else .node c full bd d ne nw se sw
    else if (d.length : ℚ) ≥ c then
      .node c true bd d (some (new c (quadNE bd))) (some (new c (quadNW bd)))
        (some (new c (quadSE bd))) (some (new c (quadSW bd)))
    else .node c full bd (d ++ [point]) ne nw se sw

/-- The `child.as_mut().unwrap().insert(point)` step on an optional child
(only ever reached under a `hits` guard, hence on `some`). -/
def insertOpt : Option QuadTree → Particle → Option QuadTree
  | some t, point => some (insert t point)
  | none, _ => none

end

mutual

/-- `QuadTree::query(range)` from `src/main.rs`: prune when `range` does not
overlap the boundary; otherwise collect the node's own `data` filtered by
`range.contains`, then extend with the children's results in source order
NW, NE, SW, SE. -/
def query : QuadTree → Circle → List Particle
  | .node _ _ bd d ne nw se sw, range =>
    if !(range.overlaps_rect bd) then []
    else
      (d.filter fun p => range.containsVec p.pos)
        ++ optQuery nw range ++ optQuery ne range ++ optQuery sw range ++ optQuery se range

/-- The `if let Some(v) = &child { res.extend(v.query(range)) }` step. -/
def optQuery : Option QuadTree → Circle → List Particle
  | some v, range => query v range
  | none, _ => []

end

end QuadTree

/-- `build_quadtree` minus the hard-coded configuration: construct a fresh
tree over `bounds` with the given capacity and insert every point in order
(spec name: `rebuild`). -/
def rebuild (points : List Particle) (capacity : ℚ) (bounds : Rect) : QuadTree :=
  points.foldl QuadTree.insert (QuadTree.new capacity bounds)

/-- `build_quadtree(points)` from `src/main.rs`: capacity
`QUADTREE_CAPACITY`, boundary `(0, 0, screen_width(), screen_height())`. -/
def build_quadtree (points : List Particle) : QuadTree :=
  rebuild points QUADTREE_CAPACITY ⟨0, 0, WINDOW_WIDTH, WINDOW_HEIGHT⟩

/-- `check_overlap(points, quadtree)` from `src/main.rs`: each point is
colored `BLUE` when querying the tree with the circle centered at its
position with radius `2.0 * radius` returns more than one particle, and
`RED` otherwise. -/
def check_overlap (points : List Particle) (quadtree : QuadTree) : List Particle :=
  points.map fun p =>
    if 1 < (quadtree.query ⟨p.pos.x, p.pos.y, 2 * p.radius⟩).length
    then { p with color := Color.blue }
    else { p with color := Color.red }

/-- Truncation toward zero, the rounding Rust's `%` on floats uses. -/
def ratTrunc (q : ℚ) : ℤ := if 0 ≤ q then ⌊q⌋ else ⌈q⌉

/-- Rust's `%` on `f32` (remainder with the dividend's sign), on exact
rationals: `a - b * trunc(a / b)`. -/
def rustRem (a b : ℚ) : ℚ := a - b * (ratTrunc (a / b) : ℚ)

/-- One coordinate of the `move_points` update:
`(x + delta + world) % world` with the positive intermediate value. -/
def wrapCoord (x delta world : ℚ) : ℚ := rustRem (x + delta + world) world

/-- The per-particle body of `move_points` from `src/main.rs`.  The random
displacement `RANDOM_WALK_DISTANCE * (cos angle, sin angle)` is passed in as
`(dx, dy)` (the trigonometric functions are not rational; every theorem
below only uses `|dx| ≤ RANDOM_WALK_DISTANCE` and likewise for `dy`, which
holds for every angle).  `w`/`h` are `screen_width()`/`screen_height()`. -/
def move_point (p : Particle) (dx dy w h : ℚ) : Particle :=
  { p with pos := ⟨wrapCoord p.pos.x dx w, wrapCoord p.pos.y dy h⟩ }

/-- `move_points` over a list of particles with the per-particle random
displacements supplied as a list. -/
def move_points (points : List Particle) (deltas : List (ℚ × ℚ)) (w h : ℚ) : List Particle :=
  List.zipWith (fun p dl => move_point p dl.1 dl.2 w h) points deltas

mutual

/-- Structural invariant of a quadtree node: if `is_full` is set, all four
children are present, each child's boundary is the corresponding quadrant of
the node's boundary, each child carries the node's capacity, and the children
satisfy the invariant recursively; if `is_full` is not set, the node has no
children. -/
def invB : QuadTree → Bool
  | .node c full bd _ ne nw se sw =>
    if full then
      childInv ne c (QuadTree.quadNE bd) && childInv nw c (QuadTree.quadNW bd)
        && childInv se c (QuadTree.quadSE bd) && childInv sw c (QuadTree.quadSW bd)
    else
      ne.isNone && nw.isNone && se.isNone && sw.isNone

/-- One child slot of the invariant: the child is present, has the prescribed
boundary and capacity, and is itself invariant. -/
def childInv : Option QuadTree → ℚ → Rect → Bool
  | some t, c, r => decide (t.boundary = r ∧ t.capacity = c) && invB t
  | none, _, _ => false

end

/-- The frame of a single `insert` call: relates a tree to a tree obtained by
EITHER (i) leaving it unchanged, (ii) appending the inserted particle `p` at
the end of exactly one node's `data`, or (iii) turning exactly one node's
`is_full` flag on and attaching four freshly created empty quadrant children
to that node (its `data` untouched) — while every other field of every other
node is identical (the recursion constructors `inNE` … `inSW` change exactly
one child slot and force all remaining fields to coincide). -/
inductive Eff (p : Particle) : QuadTree → QuadTree → Prop where
  | unchanged (t : QuadTree) : Eff p t t
  | append (c : ℚ) (full : Bool) (bd : Rect) (d : List Particle)
      (ne nw se sw : Option QuadTree) :
      Eff p (.node c full bd d ne nw se sw) (.node c full bd (d ++ [p]) ne nw se sw)
  | subdivide (c : ℚ) (bd : Rect) (d : List Particle) :
      Eff p (.node c false bd d none none none none)
        (.node c true bd d (some (QuadTree.new c (QuadTree.quadNE bd)))
          (some (QuadTree.new c (QuadTree.quadNW bd)))
          (some (QuadTree.new c (QuadTree.quadSE bd)))
          (some (QuadTree.new c (QuadTree.quadSW bd))))
  | inNE (c : ℚ) (full : Bool) (bd : Rect) (d : List Particle) (u u' : QuadTree)
      (nw se sw : Option QuadTree) : Eff p u u' →
      Eff p (.node c full bd d (some u) nw se sw) (.node c full bd d (some u') nw se sw)
  | inNW (c : ℚ) (full : Bool) (bd : Rect) (d : List Particle) (u u' : QuadTree)
      (ne se sw : Option QuadTree) : Eff p u u' →
      Eff p (.node c full bd d ne (some u) se sw) (.node c full bd d ne (some u') se sw)
  | inSE (c : ℚ) (full : Bool) (bd : Rect) (d : List Particle) (u u' : QuadTree)
      (ne nw sw : Option QuadTree) : Eff p u u' →
      Eff p (.node c full bd d ne nw (some u) sw) (.node c full bd d ne nw (some u') sw)
  | inSW (c : ℚ) (full : Bool) (bd : Rect) (d : List Particle) (u u' : QuadTree)
      (ne nw se : Option QuadTree) : Eff p u u' →
      Eff p (.node c full bd d ne nw se (some u)) (.node c full bd d ne nw se (some u'))

namespace QuadTree

theorem strong_ind (P : QuadTree → Prop)
    (step : ∀ t, (∀ u, sizeOf u < sizeOf t → P u) → P t) : ∀ t, P t := by
  intro t
  have key : ∀ (n : ℕ) (u : QuadTree), sizeOf u < n → P u := by
    intro n
    induction n with
    | zero => intro u h; omega
    | succ n ih => intro u h; exact step u fun v hv => ih v (by omega)
  exact key (sizeOf t + 1) t (by omega)

theorem sizeOf_child_ne {v : QuadTree} (c : ℚ) (full : Bool) (bd : Rect) (d : List Particle)
    (nw se sw : Option QuadTree) :
    sizeOf v < sizeOf (QuadTree.node c full bd d (some v) nw se sw) := by
  simp
  omega

theorem sizeOf_child_nw {v : QuadTree} (c : ℚ) (full : Bool) (bd : Rect) (d : List Particle)
    (ne se sw : Option QuadTree) :
    sizeOf v < sizeOf (QuadTree.node c full bd d ne (some v) se sw) := by
  simp
  omega

theorem sizeOf_child_se {v : QuadTree} (c : ℚ) (full : Bool) (bd : Rect) (d : List Particle)
    (ne nw sw : Option QuadTree) :
    sizeOf v < sizeOf (QuadTree.node c full bd d ne nw (some v) sw) := by
  simp
  omega

theorem sizeOf_child_sw {v : QuadTree} (c : ℚ) (full : Bool) (bd : Rect) (d : List Particle)
    (ne nw se : Option QuadTree) :
    sizeOf v < sizeOf (QuadTree.node c full bd d ne nw se (some v)) := by
  simp
  omega

theorem insert_boundary (t : QuadTree) (p : Particle) : boundary (insert t p) = boundary t := by
  rw [insert.eq_def]
  repeat' split
  all_goals rfl

theorem insert_capacity (t : QuadTree) (p : Particle) : capacity (insert t p) = capacity t := by
  rw [insert.eq_def]
  repeat' split
  all_goals rfl

theorem insert_is_full_mono (t : QuadTree) (p : Particle) (h : is_full t = true) :
    is_full (insert t p) = true := by
  cases t with
  | node c full bd d ne nw se sw =>
    simp only [is_full] at h
    subst h
    rw [insert]
    simp only [if_true]
    repeat' split
    all_goals rfl

theorem insertOpt_map_boundary (o : Option QuadTree) (p : Particle) :
    Option.map boundary (insertOpt o p) = Option.map boundary o := by
  cases o <;> simp [insertOpt, insert_boundary]

theorem insertOpt_map_capacity (o : Option QuadTree) (p : Particle) :
    Option.map capacity (insertOpt o p) = Option.map capacity o := by
  cases o <;> simp [insertOpt, insert_capacity]

theorem insertOpt_isSome (o : Option QuadTree) (p : Particle) :
    (insertOpt o p).isSome = o.isSome := by
  cases o <;> simp [insertOpt]

theorem insert_full_eq (c : ℚ) (bd : Rect) (d : List Particle)
    (ne nw se sw : Option QuadTree) (p : Particle) :
    insert (.node c true bd d ne nw se sw) p =
      if hits ne p then .node c true bd d (insertOpt ne p) nw se sw
      else if hits nw p then .node c true bd d ne (insertOpt nw p) se sw
      else if hits se p then .node c true bd d ne nw (insertOpt se p) sw
      else if hits sw p then .node c true bd d ne nw se (insertOpt sw p)
      else .node c true bd d ne nw se sw := by
  rw [insert]
  simp

theorem insert_leaf_subdivide (c : ℚ) (bd : Rect) (d : List Particle)
    (ne nw se sw : Option QuadTree) (p : Particle) (h : (d.length : ℚ) ≥ c) :
    insert (.node c false bd d ne nw se sw) p =
      .node c true bd d (some (new c (quadNE bd))) (some (new c (quadNW bd)))
        (some (new c (quadSE bd))) (some (new c (quadSW bd))) := by
  rw [insert]
  simp [h]

theorem insert_leaf_push (c : ℚ) (bd : Rect) (d : List Particle)
    (ne nw se sw : Option QuadTree) (p : Particle) (h : ¬((d.length : ℚ) ≥ c)) :
    insert (.node c false bd d ne nw se sw) p = .node c false bd (d ++ [p]) ne nw se sw := by
  rw [insert]
  simp [h]

theorem query_new (c : ℚ) (r : Rect) (range : Circle) : query (new c r) range = [] := by
  rw [new, query]
  split <;> simp [optQuery]

theorem query_prune (t : QuadTree) (range : Circle)
    (h : range.overlaps_rect t.boundary = false) : query t range = [] := by
  cases t with
  | node c full bd d ne nw se sw =>
    simp only [boundary] at h
    rw [query]
    simp [h]

theorem mem_optQuery {o : Option QuadTree} {range : Circle} {q : Particle}
    (h : q ∈ optQuery o range) : ∃ v, o = some v ∧ q ∈ query v range := by
  cases o with
  | none => simp [optQuery] at h
  | some v => exact ⟨v, rfl, h⟩

theorem query_sound (t : QuadTree) :
    ∀ (range : Circle), ∀ q ∈ query t range, range.containsVec q.pos = true := by
  induction t using strong_ind with
  | step t ih =>
    cases t with
    | node c full bd d ne nw se sw =>
      intro range q hq
      rw [query] at hq
      split at hq
      · simp at hq
      · simp only [List.mem_append] at hq
        rcases hq with (((hq | hq) | hq) | hq) | hq
        · exact (List.mem_filter.mp hq).2
        · obtain ⟨v, rfl, hv⟩ := mem_optQuery hq
          exact ih v (sizeOf_child_nw c full bd d ne se sw) range q hv
        · obtain ⟨v, rfl, hv⟩ := mem_optQuery hq
          exact ih v (sizeOf_child_ne c full bd d nw se sw) range q hv
        · obtain ⟨v, rfl, hv⟩ := mem_optQuery hq
          exact ih v (sizeOf_child_sw c full bd d ne nw se) range q hv
        · obtain ⟨v, rfl, hv⟩ := mem_optQuery hq
          exact ih v (sizeOf_child_se c full bd d ne nw sw) range q hv

theorem childInv_some_elim {o : Option QuadTree} {c : ℚ} {r : Rect}
    (h : childInv o c r = true) :
    ∃ u, o = some u ∧ boundary u = r ∧ capacity u = c ∧ invB u = true := by
  cases o with
  | none => simp [childInv] at h
  | some u =>
    simp only [childInv, Bool.and_eq_true, decide_eq_true_eq] at h
    exact ⟨u, rfl, h.1.1, h.1.2, h.2⟩

theorem childInv_some_intro {u : QuadTree} {c : ℚ} {r : Rect}
    (hb : boundary u = r) (hc : capacity u = c) (hi : invB u = true) :
    childInv (some u) c r = true := by
  simp only [childInv, Bool.and_eq_true, decide_eq_true_eq]
  exact ⟨⟨hb, hc⟩, hi⟩

theorem invB_new (c : ℚ) (r : Rect) : invB (new c r) = true := by
  rw [new, invB]
  simp

theorem invB_node_true {c : ℚ} {bd : Rect} {d : List Particle}
    {ne nw se sw : Option QuadTree} :
    invB (.node c true bd d ne nw se sw) = true ↔
      childInv ne c (quadNE bd) = true ∧ childInv nw c (quadNW bd) = true
        ∧ childInv se c (quadSE bd) = true ∧ childInv sw c (quadSW bd) = true := by
  rw [invB]
  simp [Bool.and_eq_true, and_assoc]

theorem invB_node_false {c : ℚ} {bd : Rect} {d : List Particle}
    {ne nw se sw : Option QuadTree} :
    invB (.node c false bd d ne nw se sw) = true ↔
      ne = none ∧ nw = none ∧ se = none ∧ sw = none := by
  rw [invB]
  simp [Bool.and_eq_true, Option.isNone_iff_eq_none, and_assoc]

theorem invB_insert : ∀ (t : QuadTree) (p : Particle), invB t = true → invB (insert t p) = true := by
  intro t
  induction t using strong_ind with
  | step t ih =>
    intro p hInv
    cases t with
    | node c full bd d ne nw se sw =>
      cases full with
      | false =>
        obtain ⟨h1, h2, h3, h4⟩ := invB_node_false.mp hInv
        subst h1; subst h2; subst h3; subst h4
        by_cases hlen : (d.length : ℚ) ≥ c
        · rw [insert_leaf_subdivide c bd d none none none none p hlen]
          rw [invB_node_true]
          refine ⟨?_, ?_, ?_, ?_⟩ <;> exact childInv_some_intro rfl rfl (invB_new _ _)
        · rw [insert_leaf_push c bd d none none none none p hlen]
          exact invB_node_false.mpr ⟨rfl, rfl, rfl, rfl⟩
      | true =>
        obtain ⟨hne, hnw, hse, hsw⟩ := invB_node_true.mp hInv
        rw [insert_full_eq]
        split
        · obtain ⟨u, rfl, hb, hc, hu⟩ := childInv_some_elim hne
          rw [invB_node_true]
          refine ⟨?_, hnw, hse, hsw⟩
          rw [insertOpt]
          exact childInv_some_intro (by rw [insert_boundary, hb]) (by rw [insert_capacity, hc])
            (ih u (sizeOf_child_ne c true bd d nw se sw) p hu)
        split
        · obtain ⟨u, rfl, hb, hc, hu⟩ := childInv_some_elim hnw
          rw [invB_node_true]
          refine ⟨hne, ?_, hse, hsw⟩
          rw [insertOpt]
          exact childInv_some_intro (by rw [insert_boundary, hb]) (by rw [insert_capacity, hc])
            (ih u (sizeOf_child_nw c true bd d ne se sw) p hu)
        split
        · obtain ⟨u, rfl, hb, hc, hu⟩ := childInv_some_elim hse
          rw [invB_node_true]
          refine ⟨hne, hnw, ?_, hsw⟩
          rw [insertOpt]
          exact childInv_some_intro (by rw [insert_boundary, hb]) (by rw [insert_capacity, hc])
            (ih u (sizeOf_child_se c true bd d ne nw sw) p hu)
        split
        · obtain ⟨u, rfl, hb, hc, hu⟩ := childInv_some_elim hsw
          rw [invB_node_true]
          refine ⟨hne, hnw, hse, ?_⟩
          rw [insertOpt]
          exact childInv_some_intro (by rw [insert_boundary, hb]) (by rw [insert_capacity, hc])
            (ih u (sizeOf_child_sw c true bd d ne nw se) p hu)
        · exact hInv

theorem invB_foldl : ∀ (ps : List Particle) (t : QuadTree), invB t = true →
    invB (ps.foldl insert t) = true := by
  intro ps
  induction ps with
  | nil => intro t h; exact h
  | cons p ps ihp =>
    intro t h
    exact ihp (insert t p) (invB_insert t p h)

end QuadTree

theorem invB_rebuild (ps : List Particle) (c : ℚ) (r : Rect) :
    invB (rebuild ps c r) = true :=
  QuadTree.invB_foldl ps (QuadTree.new c r) (QuadTree.invB_new c r)

theorem ratAbs_nonneg (q : ℚ) : 0 ≤ ratAbs q := by
  rw [ratAbs]
  split <;> linarith

theorem ratAbs_lt_of_sq (q r : ℚ) (hr : 0 < r) (h : q * q < r * r) : ratAbs q < r := by
  rw [ratAbs]
  split <;> nlinarith

theorem foldl_insert_leaf (ps : List Particle) :
    ∀ (c : ℚ) (bd : Rect) (d : List Particle), (d.length : ℚ) + (ps.length : ℚ) ≤ c →
      ps.foldl QuadTree.insert (.node c false bd d none none none none)
        = .node c false bd (d ++ ps) none none none none := by
  induction ps with
  | nil => intro c bd d h; simp
  | cons p ps ihp =>
    intro c bd d h
    simp only [List.length_cons] at h
    push_cast at h
    have hnn : (0 : ℚ) ≤ (ps.length : ℚ) := Nat.cast_nonneg _
    have hlen : ¬((d.length : ℚ) ≥ c) := by linarith
    rw [List.foldl_cons, QuadTree.insert_leaf_push c bd d none none none none p hlen]
    rw [ihp c bd (d ++ [p]) (by
      simp only [List.length_append, List.length_cons, List.length_nil]
      push_cast
      linarith)]
    simp

theorem overlaps_of_covers (bd : Rect) (circ : Circle) (hw : 0 ≤ bd.w) (hh : 0 ≤ bd.h)
    (hcov : ∀ v : Vec2, bd.containsVec v = true → circ.containsVec v = true) :
    circ.overlaps_rect bd = true := by
  have hcenter : bd.containsVec ⟨bd.x + bd.w / 2, bd.y + bd.h / 2⟩ = true := by
    simp only [Rect.containsVec, decide_eq_true_eq]
    refine ⟨by linarith, by linarith, by linarith, by linarith⟩
  have hc := hcov _ hcenter
  simp only [Circle.containsVec, decide_eq_true_eq] at hc
  obtain ⟨hr, hdist⟩ := hc
  have hdx : ratAbs (circ.x - (bd.x + bd.w / 2)) < circ.r := by
    apply ratAbs_lt_of_sq _ _ hr
    nlinarith [sq_nonneg (bd.y + bd.h / 2 - circ.y)]
  have hdy : ratAbs (circ.y - (bd.y + bd.h / 2)) < circ.r := by
    apply ratAbs_lt_of_sq _ _ hr
    nlinarith [sq_nonneg (bd.x + bd.w / 2 - circ.x)]
  simp only [Circle.overlaps_rect]
  rw [if_neg (by push_neg; constructor <;> linarith)]
  by_cases hmid : ratAbs (circ.x - (bd.x + bd.w / 2)) ≤ bd.w / 2
      ∨ ratAbs (circ.y - (bd.y + bd.h / 2)) ≤ bd.h / 2
  · rw [if_pos hmid]
  · rw [if_neg hmid]
    push_neg at hmid
    obtain ⟨hmx, hmy⟩ := hmid
    simp only [decide_eq_true_eq]
    by_cases hx : bd.x + bd.w / 2 ≤ circ.x <;> by_cases hy : bd.y + bd.h / 2 ≤ circ.y
    · have hcq := hcov ⟨bd.x + bd.w, bd.y + bd.h⟩ (by
        simp only [Rect.containsVec, decide_eq_true_eq]
        refine ⟨by linarith, by linarith, by linarith, by linarith⟩)
      simp only [Circle.containsVec, decide_eq_true_eq] at hcq
      rw [ratAbs, if_neg (by linarith)] at hmx ⊢
      rw [ratAbs, if_neg (by linarith)] at hmy ⊢
      have h2 := hcq.2
      ring_nf at h2 ⊢
      linarith
    · have hcq := hcov ⟨bd.x + bd.w, bd.y⟩ (by
        simp only [Rect.containsVec, decide_eq_true_eq]
        refine ⟨by linarith, by linarith, by linarith, by linarith⟩)
      simp only [Circle.containsVec, decide_eq_true_eq] at hcq
      push_neg at hy
      rw [ratAbs, if_neg (by linarith)] at hmx ⊢
      rw [ratAbs, if_pos (by linarith)] at hmy ⊢
      have h2 := hcq.2
      ring_nf at h2 ⊢
      linarith
    · have hcq := hcov ⟨bd.x, bd.y + bd.h⟩ (by
        simp only [Rect.containsVec, decide_eq_true_eq]
        refine ⟨by linarith, by linarith, by linarith, by linarith⟩)
      simp only [Circle.containsVec, decide_eq_true_eq] at hcq
      push_neg at hx
      rw [ratAbs, if_pos (by linarith)] at hmx ⊢
      rw [ratAbs, if_neg (by linarith)] at hmy ⊢
      have h2 := hcq.2
      ring_nf at h2 ⊢
      linarith
    · have hcq := hcov ⟨bd.x, bd.y⟩ (by
        simp only [Rect.containsVec, decide_eq_true_eq]
        refine ⟨by linarith, by linarith, by linarith, by linarith⟩)
      simp only [Circle.containsVec, decide_eq_true_eq] at hcq
      push_neg at hx hy
      rw [ratAbs, if_pos (by linarith)] at hmx ⊢
      rw [ratAbs, if_pos (by linarith)] at hmy ⊢
      have h2 := hcq.2
      ring_nf at h2 ⊢
      linarith

theorem rustRem_bounds (a b : ℚ) (ha : 0 ≤ a) (hb : 0 < b) :
    0 ≤ rustRem a b ∧ rustRem a b < b := by
  have hdiv : 0 ≤ a / b := div_nonneg ha (le_of_lt hb)
  have htr : ratTrunc (a / b) = ⌊a / b⌋ := if_pos hdiv
  have hbne : b ≠ 0 := ne_of_gt hb
  have hcancel : b * (a / b) = a := by field_simp
  have hkey : rustRem a b = b * Int.fract (a / b) := by
    rw [rustRem, htr, Int.fract, mul_sub, hcancel]
  constructor
  · rw [hkey]
    exact mul_nonneg (le_of_lt hb) (Int.fract_nonneg _)
  · rw [hkey]
    calc b * Int.fract (a / b) < b * 1 := by
          exact mul_lt_mul_of_pos_left (Int.fract_lt_one _) hb
      _ = b := mul_one b

theorem ratAbs_le_bounds (q r : ℚ) (h : ratAbs q ≤ r) : -r ≤ q ∧ q ≤ r := by
  rw [ratAbs] at h
  split at h <;> constructor <;> linarith


namespace Claims

open QuadTree

/-- C1, counterexample.  With capacity 1, inserting a second point into the
root leaf triggers subdivision, yet a subsequent circular query still returns
the already-held point: the claim that the held points are effectively
dropped from every subsequent query is false on the code (`query` scans
`data` unconditionally and subdivision never clears `data`). -/
theorem claim_C1_counterexample :
    is_full (QuadTree.insert (QuadTree.insert (new 1 ⟨0, 0, 1024, 1024⟩) ⟨⟨100, 100⟩, Color.red, 5⟩)
        ⟨⟨200, 200⟩, Color.red, 5⟩) = true
    ∧ query (QuadTree.insert (QuadTree.insert (new 1 ⟨0, 0, 1024, 1024⟩) ⟨⟨100, 100⟩, Color.red, 5⟩)
        ⟨⟨200, 200⟩, Color.red, 5⟩) ⟨100, 100, 50⟩
      = [⟨⟨100, 100⟩, Color.red, 5⟩] := by
  constructor <;>
    norm_num [QuadTree.insert, insertOpt, query, optQuery, new, hits, contains, boundary,
      is_full, quadNE, quadNW, quadSE, quadSW, Rect.containsVec, Circle.containsVec,
      Circle.overlaps_rect, ratAbs]

/-- C1, amended: when an insertion finds a leaf at capacity and triggers
subdivision, only the newly arriving point is dropped; the points already
held stay in the node's `data` (which `query` scans also for subdivided
nodes), so every circular query returns exactly what it returned before the
triggering insertion. -/
theorem claim_C1 (c : ℚ) (bd : Rect) (d : List Particle) (p : Particle) (range : Circle)
    (h : (d.length : ℚ) ≥ c) :
    query (QuadTree.insert (.node c false bd d none none none none) p) range
      = query (.node c false bd d none none none none) range := by
  rw [insert_leaf_subdivide c bd d none none none none p h]
  simp only [query, optQuery, new]
  split <;> simp

/-- C1, witness for the amended theorem at capacity 1 with one held point. -/
theorem claim_C1_witness :
    ((([⟨⟨100, 100⟩, Color.red, 5⟩] : List Particle).length : ℚ) ≥ 1)
    ∧ query (QuadTree.insert (.node 1 false ⟨0, 0, 1024, 1024⟩ [⟨⟨100, 100⟩, Color.red, 5⟩]
          none none none none) ⟨⟨200, 200⟩, Color.red, 5⟩) ⟨100, 100, 50⟩
      = query (.node 1 false ⟨0, 0, 1024, 1024⟩ [⟨⟨100, 100⟩, Color.red, 5⟩]
          none none none none) ⟨100, 100, 50⟩ :=
  ⟨by norm_num,
    claim_C1 1 ⟨0, 0, 1024, 1024⟩ [⟨⟨100, 100⟩, Color.red, 5⟩] ⟨⟨200, 200⟩, Color.red, 5⟩
      ⟨100, 100, 50⟩ (by norm_num)⟩

/-- C2: an insert call reaching a leaf whose `data` count has reached
capacity creates exactly four children quartering the node's boundary, marks
the node subdivided (`is_full = true`), keeps `data` unchanged (no
re-insertion of the existing items), does not place the arriving point
anywhere, and all four children hold no points. -/
theorem claim_C2 (c : ℚ) (bd : Rect) (d : List Particle) (ne nw se sw : Option QuadTree)
    (p : Particle) (h : (d.length : ℚ) ≥ c) :
    QuadTree.insert (.node c false bd d ne nw se sw) p
        = .node c true bd d (some (new c (quadNE bd))) (some (new c (quadNW bd)))
            (some (new c (quadSE bd))) (some (new c (quadSW bd)))
      ∧ data (new c (quadNE bd)) = [] ∧ data (new c (quadNW bd)) = []
      ∧ data (new c (quadSE bd)) = [] ∧ data (new c (quadSW bd)) = [] :=
  ⟨insert_leaf_subdivide c bd d ne nw se sw p h, rfl, rfl, rfl, rfl⟩

/-- C2, witness at capacity 1 with one held point. -/
theorem claim_C2_witness :
    ((([⟨⟨100, 100⟩, Color.red, 5⟩] : List Particle).length : ℚ) ≥ 1)
    ∧ QuadTree.insert (.node 1 false ⟨0, 0, 1024, 1024⟩ [⟨⟨100, 100⟩, Color.red, 5⟩]
          none none none none) ⟨⟨200, 200⟩, Color.red, 5⟩
      = .node 1 true ⟨0, 0, 1024, 1024⟩ [⟨⟨100, 100⟩, Color.red, 5⟩]
          (some (new 1 (quadNE ⟨0, 0, 1024, 1024⟩))) (some (new 1 (quadNW ⟨0, 0, 1024, 1024⟩)))
          (some (new 1 (quadSE ⟨0, 0, 1024, 1024⟩))) (some (new 1 (quadSW ⟨0, 0, 1024, 1024⟩))) :=
  ⟨by norm_num,
    (claim_C2 1 ⟨0, 0, 1024, 1024⟩ [⟨⟨100, 100⟩, Color.red, 5⟩] none none none none
      ⟨⟨200, 200⟩, Color.red, 5⟩ (by norm_num)).1⟩

/-- C4: every particle returned by `query` has its position inside the
range, and when the range does not overlap the node's boundary `query`
returns the empty list. -/
theorem claim_C4 (t : QuadTree) (range : Circle) :
    (∀ q ∈ query t range, range.containsVec q.pos = true)
      ∧ (range.overlaps_rect t.boundary = false → query t range = []) :=
  ⟨query_sound t range, query_prune t range⟩

/-- C4, witness: a far-away range does not overlap the fresh root and the
query returns the empty list. -/
theorem claim_C4_witness :
    (Circle.overlaps_rect ⟨3000, 3000, 10⟩ (boundary (new 30 ⟨0, 0, 1024, 1024⟩)) = false)
    ∧ query (new 30 ⟨0, 0, 1024, 1024⟩) ⟨3000, 3000, 10⟩ = [] := by
  have h : Circle.overlaps_rect ⟨3000, 3000, 10⟩ (boundary (new 30 ⟨0, 0, 1024, 1024⟩)) = false := by
    norm_num [Circle.overlaps_rect, ratAbs, boundary, new]
  exact ⟨h, (claim_C4 (new 30 ⟨0, 0, 1024, 1024⟩) ⟨3000, 3000, 10⟩).2 h⟩

/-- C5, counterexample.  A point outside the root boundary inserted into a
fresh index is NOT silently dropped: the root is a leaf with spare capacity,
so the point is appended to its `data`, and a query with a large circle that
overlaps the root boundary and contains the point returns it. -/
theorem claim_C5_counterexample :
    Rect.containsVec ⟨0, 0, 1024, 1024⟩ ⟨2000, 2000⟩ = false
    ∧ query (QuadTree.insert (new 30 ⟨0, 0, 1024, 1024⟩) ⟨⟨2000, 2000⟩, Color.red, 5⟩)
        ⟨1600, 1600, 1500⟩ = [⟨⟨2000, 2000⟩, Color.red, 5⟩] := by
  constructor <;>
    norm_num [QuadTree.insert, insertOpt, query, optQuery, new, hits, contains, boundary,
      Rect.containsVec, Circle.containsVec, Circle.overlaps_rect, ratAbs]

/-- C5, amended: `insert` is total (it cannot crash), and a point — in
particular one outside the root boundary — is silently not stored only when
it reaches a subdivided node none of whose children contain it; a leaf with
remaining capacity appends the point to its `data` regardless of the
boundary (so, per the counterexample, a later query can return it). -/
theorem claim_C5 :
    (∀ (c : ℚ) (bd : Rect) (d : List Particle) (ne nw se sw : Option QuadTree) (p : Particle),
      hits ne p = false → hits nw p = false → hits se p = false → hits sw p = false →
      QuadTree.insert (.node c true bd d ne nw se sw) p = .node c true bd d ne nw se sw)
    ∧ (∀ (c : ℚ) (bd : Rect) (d : List Particle) (ne nw se sw : Option QuadTree) (p : Particle),
      ¬((d.length : ℚ) ≥ c) →
      QuadTree.insert (.node c false bd d ne nw se sw) p = .node c false bd (d ++ [p]) ne nw se sw) := by
  constructor
  · intro c bd d ne nw se sw p h1 h2 h3 h4
    rw [insert_full_eq]
    simp [h1, h2, h3, h4]
  · intro c bd d ne nw se sw p h
    exact insert_leaf_push c bd d ne nw se sw p h

/-- C5, witness: the silent-drop branch on a subdivided root whose children
do not contain the out-of-bounds point, and the append branch on a fresh
leaf. -/
theorem claim_C5_witness :
    (hits (some (new 30 (quadNE ⟨0, 0, 1024, 1024⟩))) ⟨⟨2000, 2000⟩, Color.red, 5⟩ = false)
    ∧ QuadTree.insert (.node 30 true ⟨0, 0, 1024, 1024⟩ []
          (some (new 30 (quadNE ⟨0, 0, 1024, 1024⟩))) (some (new 30 (quadNW ⟨0, 0, 1024, 1024⟩)))
          (some (new 30 (quadSE ⟨0, 0, 1024, 1024⟩))) (some (new 30 (quadSW ⟨0, 0, 1024, 1024⟩))))
          ⟨⟨2000, 2000⟩, Color.red, 5⟩
      = .node 30 true ⟨0, 0, 1024, 1024⟩ []
          (some (new 30 (quadNE ⟨0, 0, 1024, 1024⟩))) (some (new 30 (quadNW ⟨0, 0, 1024, 1024⟩)))
          (some (new 30 (quadSE ⟨0, 0, 1024, 1024⟩))) (some (new 30 (quadSW ⟨0, 0, 1024, 1024⟩)))
    ∧ QuadTree.insert (.node 30 false ⟨0, 0, 1024, 1024⟩ [] none none none none)
          ⟨⟨2000, 2000⟩, Color.red, 5⟩
      = .node 30 false ⟨0, 0, 1024, 1024⟩ [⟨⟨2000, 2000⟩, Color.red, 5⟩] none none none none := by
  have hne : hits (some (new 30 (quadNE ⟨0, 0, 1024, 1024⟩))) ⟨⟨2000, 2000⟩, Color.red, 5⟩ = false := by
    norm_num [hits, contains, new, boundary, quadNE, Rect.containsVec]
  have hnw : hits (some (new 30 (quadNW ⟨0, 0, 1024, 1024⟩))) ⟨⟨2000, 2000⟩, Color.red, 5⟩ = false := by
    norm_num [hits, contains, new, boundary, quadNW, Rect.containsVec]
  have hse : hits (some (new 30 (quadSE ⟨0, 0, 1024, 1024⟩))) ⟨⟨2000, 2000⟩, Color.red, 5⟩ = false := by
    norm_num [hits, contains, new, boundary, quadSE, Rect.containsVec]
  have hsw : hits (some (new 30 (quadSW ⟨0, 0, 1024, 1024⟩))) ⟨⟨2000, 2000⟩, Color.red, 5⟩ = false := by
    norm_num [hits, contains, new, boundary, quadSW, Rect.containsVec]
  refine ⟨hne, claim_C5.1 30 ⟨0, 0, 1024, 1024⟩ [] _ _ _ _ _ hne hnw hse hsw, ?_⟩
  exact claim_C5.2 30 ⟨0, 0, 1024, 1024⟩ [] none none none none ⟨⟨2000, 2000⟩, Color.red, 5⟩
    (by norm_num)

/-- C6, counterexample.  `QuadTree::new` performs no validation: constructing
an index with capacity 0 succeeds and produces an ordinary empty leaf index —
there is no InvalidConfiguration failure anywhere in the constructor. -/
theorem claim_C6_counterexample :
    new 0 ⟨0, 0, 1024, 1024⟩
      = .node 0 false ⟨0, 0, 1024, 1024⟩ [] none none none none := rfl

/-- C6, amended: construction does not reject any capacity; for every
capacity ≤ 0 (as for any other), `new` returns an empty leaf index carrying
exactly that capacity. -/
theorem claim_C6 (c : ℚ) (r : Rect) (_h : c ≤ 0) :
    new c r = .node c false r [] none none none none := rfl

/-- C6, witness at capacity 0. -/
theorem claim_C6_witness :
    ((0 : ℚ) ≤ 0)
    ∧ new 0 ⟨0, 0, 1024, 1024⟩
        = .node 0 false ⟨0, 0, 1024, 1024⟩ [] none none none none :=
  ⟨by norm_num, claim_C6 0 ⟨0, 0, 1024, 1024⟩ (by norm_num)⟩

/-- C3: at most `capacity` points whose positions lie inside the boundary,
inserted into a fresh index, land in the root leaf without subdivision, and
a circular range covering the whole boundary returns exactly that list of
points — none lost, none duplicated. -/
theorem claim_C3 (c : ℚ) (bd : Rect) (circ : Circle) (ps : List Particle)
    (hcap : (ps.length : ℚ) ≤ c)
    (hin : ∀ p ∈ ps, bd.containsVec p.pos = true)
    (hcov : ∀ v : Vec2, bd.containsVec v = true → circ.containsVec v = true)
    (hw : 0 ≤ bd.w) (hh : 0 ≤ bd.h) :
    query (rebuild ps c bd) circ = ps := by
  have hfold : rebuild ps c bd = .node c false bd ps none none none none := by
    rw [rebuild, new]
    have hlen : ((([] : List Particle).length : ℚ) + (ps.length : ℚ)) ≤ c := by
      simpa using hcap
    simpa using foldl_insert_leaf ps c bd [] hlen
  rw [hfold]
  have hov : circ.overlaps_rect bd = true := overlaps_of_covers bd circ hw hh hcov
  simp only [query, optQuery, hov, Bool.not_true, List.append_nil]
  simp only [Bool.false_eq_true, if_false]
  rw [List.filter_eq_self]
  intro p hp
  exact hcov p.pos (hin p hp)

/-- C3, witness: two points inside the 1024-square, capacity 30, queried
with a circle of radius 800 around the center, which covers the square. -/
theorem claim_C3_witness :
    ((([⟨⟨100, 100⟩, Color.red, 5⟩, ⟨⟨200, 200⟩, Color.red, 5⟩] : List Particle).length : ℚ) ≤ 30)
    ∧ query (rebuild [⟨⟨100, 100⟩, Color.red, 5⟩, ⟨⟨200, 200⟩, Color.red, 5⟩] 30
          ⟨0, 0, 1024, 1024⟩) ⟨512, 512, 800⟩
      = [⟨⟨100, 100⟩, Color.red, 5⟩, ⟨⟨200, 200⟩, Color.red, 5⟩] := by
  refine ⟨by norm_num, claim_C3 30 ⟨0, 0, 1024, 1024⟩ ⟨512, 512, 800⟩ _ (by norm_num) ?_ ?_
    (by norm_num) (by norm_num)⟩
  · intro p hp
    simp only [List.mem_cons, List.not_mem_nil, or_false] at hp
    rcases hp with rfl | rfl <;> norm_num [Rect.containsVec]
  · intro v hv
    simp only [Rect.containsVec, decide_eq_true_eq] at hv
    obtain ⟨h1, h2, h3, h4⟩ := hv
    simp only [Circle.containsVec, decide_eq_true_eq]
    have hx : 0 ≤ v.x * (1024 - v.x) := mul_nonneg (by linarith) (by linarith)
    have hy : 0 ≤ v.y * (1024 - v.y) := mul_nonneg (by linarith) (by linarith)
    constructor
    · norm_num
    · nlinarith [hx, hy]

/-- C9: starting from a position inside `[0, w) × [0, h)`, one step of the
`move_points` update — per coordinate the positive-intermediate remainder
`(x + delta + world) % world` with `delta = RANDOM_WALK_DISTANCE * cos/sin
angle`, hence `|delta| ≤ RANDOM_WALK_DISTANCE` — lands inside
`[0, w) × [0, h)` again, provided the step distance does not exceed the
world dimensions (it is 10 against a 1024-square in the program). -/
theorem claim_C9 (p : Particle) (dx dy w h : ℚ)
    (hx0 : 0 ≤ p.pos.x) (hxw : p.pos.x < w)
    (hy0 : 0 ≤ p.pos.y) (hyh : p.pos.y < h)
    (hdx : ratAbs dx ≤ RANDOM_WALK_DISTANCE) (hdy : ratAbs dy ≤ RANDOM_WALK_DISTANCE)
    (hw : RANDOM_WALK_DISTANCE ≤ w) (hh : RANDOM_WALK_DISTANCE ≤ h) :
    (move_point p dx dy w h).pos.x = rustRem (p.pos.x + dx + w) w
    ∧ (move_point p dx dy w h).pos.y = rustRem (p.pos.y + dy + h) h
    ∧ 0 ≤ (move_point p dx dy w h).pos.x ∧ (move_point p dx dy w h).pos.x < w
    ∧ 0 ≤ (move_point p dx dy w h).pos.y ∧ (move_point p dx dy w h).pos.y < h := by
  obtain ⟨hdx1, hdx2⟩ := ratAbs_le_bounds dx RANDOM_WALK_DISTANCE hdx
  obtain ⟨hdy1, hdy2⟩ := ratAbs_le_bounds dy RANDOM_WALK_DISTANCE hdy
  have hwpos : 0 < w := lt_of_le_of_lt hx0 hxw
  have hhpos : 0 < h := lt_of_le_of_lt hy0 hyh
  have hax : 0 ≤ p.pos.x + dx + w := by linarith
  have hay : 0 ≤ p.pos.y + dy + h := by linarith
  have hbx := rustRem_bounds (p.pos.x + dx + w) w hax hwpos
  have hby := rustRem_bounds (p.pos.y + dy + h) h hay hhpos
  refine ⟨rfl, rfl, ?_, ?_, ?_, ?_⟩ <;> simp only [move_point, wrapCoord] <;> tauto

/-- C9, witness: the point `(5, 1000)` stepped by `(-10, 10)` in the
1024-square (the x intermediate is `5 - 10 + 1024 = 1019`, kept in range
only thanks to the added `+ 1024`). -/
theorem claim_C9_witness :
    ((0 : ℚ) ≤ (5 : ℚ)) ∧ ((5 : ℚ) < (1024 : ℚ)) ∧ (ratAbs (-10) ≤ RANDOM_WALK_DISTANCE)
    ∧ ((move_point ⟨⟨5, 1000⟩, Color.red, 5⟩ (-10) 10 1024 1024).pos.x
        = rustRem ((5 : ℚ) + (-10) + 1024) 1024
      ∧ (move_point ⟨⟨5, 1000⟩, Color.red, 5⟩ (-10) 10 1024 1024).pos.y
        = rustRem ((1000 : ℚ) + 10 + 1024) 1024
      ∧ 0 ≤ (move_point ⟨⟨5, 1000⟩, Color.red, 5⟩ (-10) 10 1024 1024).pos.x
      ∧ (move_point ⟨⟨5, 1000⟩, Color.red, 5⟩ (-10) 10 1024 1024).pos.x < 1024
      ∧ 0 ≤ (move_point ⟨⟨5, 1000⟩, Color.red, 5⟩ (-10) 10 1024 1024).pos.y
      ∧ (move_point ⟨⟨5, 1000⟩, Color.red, 5⟩ (-10) 10 1024 1024).pos.y < 1024) :=
  ⟨by norm_num, by norm_num, by norm_num [ratAbs, RANDOM_WALK_DISTANCE],
    claim_C9 ⟨⟨5, 1000⟩, Color.red, 5⟩ (-10) 10 1024 1024
      (by norm_num) (by norm_num) (by norm_num) (by norm_num)
      (by norm_num [ratAbs, RANDOM_WALK_DISTANCE])
      (by norm_num [ratAbs, RANDOM_WALK_DISTANCE])
      (by norm_num [RANDOM_WALK_DISTANCE]) (by norm_num [RANDOM_WALK_DISTANCE])⟩

/-- C7: `check_overlap` colors a particle BLUE (Overlapping) iff querying the
index with the circle centered at the particle's position with radius
`2 × radius` returns more than one particle, and RED (Normal) otherwise; the
output has one entry per input point; and the two spec examples hold: two
points at (10,10) and (12,10) with radius 5 both classify Overlapping, and
two points at (10,10) and (500,500) both classify Normal. -/
theorem claim_C7 :
    (∀ (points : List Particle) (qt : QuadTree) (q : Particle),
      q ∈ check_overlap points qt →
        ((q.color = Color.blue ↔ 1 < (qt.query ⟨q.pos.x, q.pos.y, 2 * q.radius⟩).length)
          ∧ (q.color = Color.red ↔ ¬ 1 < (qt.query ⟨q.pos.x, q.pos.y, 2 * q.radius⟩).length)))
    ∧ (∀ (points : List Particle) (qt : QuadTree),
        (check_overlap points qt).length = points.length)
    ∧ check_overlap [⟨⟨10, 10⟩, Color.red, 5⟩, ⟨⟨12, 10⟩, Color.red, 5⟩]
        (build_quadtree [⟨⟨10, 10⟩, Color.red, 5⟩, ⟨⟨12, 10⟩, Color.red, 5⟩])
      = [⟨⟨10, 10⟩, Color.blue, 5⟩, ⟨⟨12, 10⟩, Color.blue, 5⟩]
    ∧ check_overlap [⟨⟨10, 10⟩, Color.red, 5⟩, ⟨⟨500, 500⟩, Color.red, 5⟩]
        (build_quadtree [⟨⟨10, 10⟩, Color.red, 5⟩, ⟨⟨500, 500⟩, Color.red, 5⟩])
      = [⟨⟨10, 10⟩, Color.red, 5⟩, ⟨⟨500, 500⟩, Color.red, 5⟩] := by
  refine ⟨?_, ?_, ?_, ?_⟩
  · intro points qt q hq
    simp only [check_overlap, List.mem_map] at hq
    obtain ⟨p, hp, rfl⟩ := hq
    by_cases hl : 1 < (qt.query ⟨p.pos.x, p.pos.y, 2 * p.radius⟩).length
    · simp [hl]
    · simp [hl]
  · intro points qt
    simp [check_overlap]
  · norm_num [check_overlap, build_quadtree, rebuild, QUADTREE_CAPACITY, WINDOW_WIDTH,
      WINDOW_HEIGHT, QuadTree.insert, insertOpt, query, optQuery, new, hits, contains,
      boundary, quadNE, quadNW, quadSE, quadSW, Rect.containsVec, Circle.containsVec,
      Circle.overlaps_rect, ratAbs]
  · norm_num [check_overlap, build_quadtree, rebuild, QUADTREE_CAPACITY, WINDOW_WIDTH,
      WINDOW_HEIGHT, QuadTree.insert, insertOpt, query, optQuery, new, hits, contains,
      boundary, quadNE, quadNW, quadSE, quadSW, Rect.containsVec, Circle.containsVec,
      Circle.overlaps_rect, ratAbs]

/-- C7, witness: the first particle of the first example is classified
Overlapping, by the general characterization applied at the concrete
membership fact. -/
theorem claim_C7_witness :
    ((⟨⟨10, 10⟩, Color.blue, 5⟩ : Particle) ∈ check_overlap
        [⟨⟨10, 10⟩, Color.red, 5⟩, ⟨⟨12, 10⟩, Color.red, 5⟩]
        (build_quadtree [⟨⟨10, 10⟩, Color.red, 5⟩, ⟨⟨12, 10⟩, Color.red, 5⟩]))
    ∧ ((⟨⟨10, 10⟩, Color.blue, 5⟩ : Particle).color = Color.blue
        ↔ 1 < ((build_quadtree [⟨⟨10, 10⟩, Color.red, 5⟩, ⟨⟨12, 10⟩, Color.red, 5⟩]).query
            ⟨(⟨⟨10, 10⟩, Color.blue, 5⟩ : Particle).pos.x,
              (⟨⟨10, 10⟩, Color.blue, 5⟩ : Particle).pos.y,
              2 * (⟨⟨10, 10⟩, Color.blue, 5⟩ : Particle).radius⟩).length) := by
  have hmem : (⟨⟨10, 10⟩, Color.blue, 5⟩ : Particle) ∈ check_overlap
      [⟨⟨10, 10⟩, Color.red, 5⟩, ⟨⟨12, 10⟩, Color.red, 5⟩]
      (build_quadtree [⟨⟨10, 10⟩, Color.red, 5⟩, ⟨⟨12, 10⟩, Color.red, 5⟩]) := by
    norm_num [check_overlap, build_quadtree, rebuild, QUADTREE_CAPACITY, WINDOW_WIDTH,
      WINDOW_HEIGHT, QuadTree.insert, insertOpt, query, optQuery, new, hits, contains,
      boundary, quadNE, quadNW, quadSE, quadSW, Rect.containsVec, Circle.containsVec,
      Circle.overlaps_rect, ratAbs]
  exact ⟨hmem, (claim_C7.1 _ _ _ hmem).1⟩

/-- C8: (i) every tree reachable by `new` followed by any sequence of
inserts satisfies the structural invariant `invB` — all four children are
present iff `is_full`, each child's boundary is exactly the corresponding
quadrant of the parent's, and each child carries the parent's capacity;
(ii) once `is_full` is set an insert never clears it, never changes the
node's or its children's boundaries or capacities, and never removes or adds
a child; (iii) the four quadrants tile the parent boundary: a point is in
the parent iff it is in some quadrant; (iv) any point lying in two distinct
quadrants lies on one of the two midlines (so pairwise overlaps have zero
area). -/
theorem claim_C8 :
    (∀ (ps : List Particle) (c : ℚ) (r : Rect), invB (rebuild ps c r) = true)
    ∧ (∀ (t : QuadTree) (p : Particle), is_full t = true →
        is_full (QuadTree.insert t p) = true
        ∧ boundary (QuadTree.insert t p) = boundary t
        ∧ capacity (QuadTree.insert t p) = capacity t
        ∧ Option.map boundary (northeast (QuadTree.insert t p))
            = Option.map boundary (northeast t)
        ∧ Option.map capacity (northeast (QuadTree.insert t p))
            = Option.map capacity (northeast t)
        ∧ (northeast (QuadTree.insert t p)).isSome = (northeast t).isSome
        ∧ Option.map boundary (northwest (QuadTree.insert t p))
            = Option.map boundary (northwest t)
        ∧ Option.map capacity (northwest (QuadTree.insert t p))
            = Option.map capacity (northwest t)
        ∧ (northwest (QuadTree.insert t p)).isSome = (northwest t).isSome
        ∧ Option.map boundary (southeast (QuadTree.insert t p))
            = Option.map boundary (southeast t)
        ∧ Option.map capacity (southeast (QuadTree.insert t p))
            = Option.map capacity (southeast t)
        ∧ (southeast (QuadTree.insert t p)).isSome = (southeast t).isSome
        ∧ Option.map boundary (southwest (QuadTree.insert t p))
            = Option.map boundary (southwest t)
        ∧ Option.map capacity (southwest (QuadTree.insert t p))
            = Option.map capacity (southwest t)
        ∧ (southwest (QuadTree.insert t p)).isSome = (southwest t).isSome)
    ∧ (∀ (b : Rect) (v : Vec2), 0 ≤ b.w → 0 ≤ b.h →
        (b.containsVec v = true ↔
          ((quadNE b).containsVec v = true ∨ (quadNW b).containsVec v = true
            ∨ (quadSE b).containsVec v = true ∨ (quadSW b).containsVec v = true)))
    ∧ (∀ (b : Rect) (v : Vec2),
        ((quadNE b).containsVec v = true ∧ (quadNW b).containsVec v = true →
          v.x = b.x + b.w / 2 ∨ v.y = b.y + b.h / 2)
        ∧ ((quadNE b).containsVec v = true ∧ (quadSE b).containsVec v = true →
          v.x = b.x + b.w / 2 ∨ v.y = b.y + b.h / 2)
        ∧ ((quadNE b).containsVec v = true ∧ (quadSW b).containsVec v = true →
          v.x = b.x + b.w / 2 ∨ v.y = b.y + b.h / 2)
        ∧ ((quadNW b).containsVec v = true ∧ (quadSE b).containsVec v = true →
          v.x = b.x + b.w / 2 ∨ v.y = b.y + b.h / 2)
        ∧ ((quadNW b).containsVec v = true ∧ (quadSW b).containsVec v = true →
          v.x = b.x + b.w / 2 ∨ v.y = b.y + b.h / 2)
        ∧ ((quadSE b).containsVec v = true ∧ (quadSW b).containsVec v = true →
          v.x = b.x + b.w / 2 ∨ v.y = b.y + b.h / 2)) := by
  refine ⟨fun ps c r => invB_rebuild ps c r, ?_, ?_, ?_⟩
  · intro t p h
    cases t with
    | node c full bd d ne nw se sw =>
      simp only [is_full] at h
      subst h
      rw [insert_full_eq]
      repeat' split
      all_goals
        simp [is_full, boundary, capacity, northeast, northwest, southeast, southwest,
          insertOpt_map_boundary, insertOpt_map_capacity, insertOpt_isSome]
  · intro b v hw hh
    simp only [Rect.containsVec, quadNE, quadNW, quadSE, quadSW, decide_eq_true_eq]
    constructor
    · rintro ⟨h1, h2, h3, h4⟩
      rcases le_total v.x (b.x + b.w / 2) with hx | hx <;>
        rcases le_total v.y (b.y + b.h / 2) with hy | hy
      · exact Or.inr (Or.inl ⟨by linarith, by linarith, by linarith, by linarith⟩)
      · exact Or.inr (Or.inr (Or.inr ⟨by linarith, by linarith, by linarith, by linarith⟩))
      · exact Or.inl ⟨by linarith, by linarith, by linarith, by linarith⟩
      · exact Or.inr (Or.inr (Or.inl ⟨by linarith, by linarith, by linarith, by linarith⟩))
    · rintro (⟨h1, h2, h3, h4⟩ | ⟨h1, h2, h3, h4⟩ | ⟨h1, h2, h3, h4⟩ | ⟨h1, h2, h3, h4⟩) <;>
        exact ⟨by linarith, by linarith, by linarith, by linarith⟩
  · intro b v
    simp only [Rect.containsVec, quadNE, quadNW, quadSE, quadSW, decide_eq_true_eq]
    refine ⟨?_, ?_, ?_, ?_, ?_, ?_⟩ <;> rintro ⟨⟨a1, a2, a3, a4⟩, b1, b2, b3, b4⟩
    · exact Or.inl (le_antisymm (by linarith) (by linarith))
    · exact Or.inr (le_antisymm (by linarith) (by linarith))
    · exact Or.inl (le_antisymm (by linarith) (by linarith))
    · exact Or.inl (le_antisymm (by linarith) (by linarith))
    · exact Or.inr (le_antisymm (by linarith) (by linarith))
    · exact Or.inl (le_antisymm (by linarith) (by linarith))

/-- C8, witness: the invariant holds on a concrete rebuilt tree; inserting
into a concrete subdivided node keeps the flag and the children; tiling
instantiated at the 1024-square and the point (100, 100). -/
theorem claim_C8_witness :
    invB (rebuild [⟨⟨100, 100⟩, Color.red, 5⟩, ⟨⟨200, 200⟩, Color.red, 5⟩] 1
        ⟨0, 0, 1024, 1024⟩) = true
    ∧ is_full (QuadTree.insert (.node 1 true ⟨0, 0, 1024, 1024⟩ []
        (some (new 1 (quadNE ⟨0, 0, 1024, 1024⟩))) (some (new 1 (quadNW ⟨0, 0, 1024, 1024⟩)))
        (some (new 1 (quadSE ⟨0, 0, 1024, 1024⟩))) (some (new 1 (quadSW ⟨0, 0, 1024, 1024⟩))))
        ⟨⟨100, 100⟩, Color.red, 5⟩) = true
    ∧ (Rect.containsVec ⟨0, 0, 1024, 1024⟩ ⟨100, 100⟩ = true ↔
        ((quadNE ⟨0, 0, 1024, 1024⟩).containsVec ⟨100, 100⟩ = true
          ∨ (quadNW ⟨0, 0, 1024, 1024⟩).containsVec ⟨100, 100⟩ = true
          ∨ (quadSE ⟨0, 0, 1024, 1024⟩).containsVec ⟨100, 100⟩ = true
          ∨ (quadSW ⟨0, 0, 1024, 1024⟩).containsVec ⟨100, 100⟩ = true)) := by
  refine ⟨claim_C8.1 _ 1 _,
    (claim_C8.2.1 (.node 1 true ⟨0, 0, 1024, 1024⟩ []
      (some (new 1 (quadNE ⟨0, 0, 1024, 1024⟩))) (some (new 1 (quadNW ⟨0, 0, 1024, 1024⟩)))
      (some (new 1 (quadSE ⟨0, 0, 1024, 1024⟩))) (some (new 1 (quadSW ⟨0, 0, 1024, 1024⟩))))
      ⟨⟨100, 100⟩, Color.red, 5⟩ (by simp [is_full])).1,
    claim_C8.2.2.1 ⟨0, 0, 1024, 1024⟩ ⟨100, 100⟩ (by norm_num) (by norm_num)⟩

/-- C10: on every structurally well-formed tree (`invB`, which holds for all
trees the program can build — see C8), a single `insert` call either appends
the given particle to exactly one node's `data`, or attaches four freshly
created empty quadrant children to exactly one node, or leaves the tree
entirely unchanged; in each case every other node and every other field —
boundaries, capacities, stored particles and their order — is identical
before and after, as expressed by the frame relation `Eff`. -/
theorem claim_C10 : ∀ (t : QuadTree) (p : Particle), invB t = true →
    Eff p t (QuadTree.insert t p) := by
  intro t
  induction t using strong_ind with
  | step t ih =>
    intro p hInv
    cases t with
    | node c full bd d ne nw se sw =>
      cases full with
      | false =>
        obtain ⟨h1, h2, h3, h4⟩ := invB_node_false.mp hInv
        subst h1
        subst h2
        subst h3
        subst h4
        by_cases hlen : (d.length : ℚ) ≥ c
        · rw [insert_leaf_subdivide c bd d none none none none p hlen]
          exact Eff.subdivide c bd d
        · rw [insert_leaf_push c bd d none none none none p hlen]
          exact Eff.append c false bd d none none none none
      | true =>
        obtain ⟨hne, hnw, hse, hsw⟩ := invB_node_true.mp hInv
        rw [insert_full_eq]
        split
        · obtain ⟨u, rfl, hb, hc2, hu⟩ := childInv_some_elim hne
          rw [insertOpt]
          exact Eff.inNE c true bd d u (QuadTree.insert u p) nw se sw
            (ih u (sizeOf_child_ne c true bd d nw se sw) p hu)
        split
        · obtain ⟨u, rfl, hb, hc2, hu⟩ := childInv_some_elim hnw
          rw [insertOpt]
          exact Eff.inNW c true bd d u (QuadTree.insert u p) ne se sw
            (ih u (sizeOf_child_nw c true bd d ne se sw) p hu)
        split
        · obtain ⟨u, rfl, hb, hc2, hu⟩ := childInv_some_elim hse
          rw [insertOpt]
          exact Eff.inSE c true bd d u (QuadTree.insert u p) ne nw sw
            (ih u (sizeOf_child_se c true bd d ne nw sw) p hu)
        split
        · obtain ⟨u, rfl, hb, hc2, hu⟩ := childInv_some_elim hsw
          rw [insertOpt]
          exact Eff.inSW c true bd d u (QuadTree.insert u p) ne nw se
            (ih u (sizeOf_child_sw c true bd d ne nw se) p hu)
        · exact Eff.unchanged _

/-- C10, witness: the relation holds for an insert into a fresh tree. -/
theorem claim_C10_witness :
    invB (new 30 ⟨0, 0, 1024, 1024⟩) = true
    ∧ Eff ⟨⟨100, 100⟩, Color.red, 5⟩ (new 30 ⟨0, 0, 1024, 1024⟩)
        (QuadTree.insert (new 30 ⟨0, 0, 1024, 1024⟩) ⟨⟨100, 100⟩, Color.red, 5⟩) :=
  ⟨invB_new 30 ⟨0, 0, 1024, 1024⟩,
    claim_C10 (new 30 ⟨0, 0, 1024, 1024⟩) ⟨⟨100, 100⟩, Color.red, 5⟩
      (invB_new 30 ⟨0, 0, 1024, 1024⟩)⟩

end Claims

end QV
